import Mathlib

set_option autoImplicit false

/-!
Verification of the `grid_ui` section-process engine (`src/process.rs`).

The development shallowly embeds the Rust code: `usize` becomes `Nat`
(Rust's `checked_sub(..).unwrap_or(0)` is exactly truncated `Nat`
subtraction; unchecked `usize` subtraction sites are additionally modelled
with an `Option`-valued checked subtraction where panic-freedom is at
issue), `Vec<TrimmedText>` becomes `List TrimmedText`, `&mut self` methods
become functions returning the updated `DrawProcess` together with their
result value, and `Result`/internal errors become `Except`.
-/

namespace GridUi

/-- Modelled from the spec: the Viewport rectangle supplied by the missing
`grid` module — four integer coordinates, inclusive top-left and exclusive
bottom-right (§3 of the spec); its fields are exactly those accessed by
`process.rs`. -/
structure Grid where
  start_x : Nat
  start_y : Nat
  end_x : Nat
  end_y : Nat
deriving DecidableEq

/-- Modelled from the spec: the side selector (`Alignment`) from the missing
`grid` module; `process.rs` only ever distinguishes `Minus` from `Plus`. -/
inductive Alignment where
  | Minus : Alignment
  | Plus : Alignment
deriving DecidableEq

/-- Modelled from the spec: divider placement policy from the missing `grid`
module: Beginning | End | Halfway | explicit offset (§6 of the spec). -/
inductive DividerStrategy where
  | Beginning : DividerStrategy
  | End : DividerStrategy
  | Halfway : DividerStrategy
  | Pos : Nat → DividerStrategy
deriving DecidableEq

/-- Modelled from the spec: a line buffer produced by the trimming policy
(missing `trim` module). `process.rs` only reads its field `.0` (a display
string), which is the field `txt` here. -/
structure TrimmedText where
  txt : String
deriving DecidableEq

/-- Modelled from the spec: a draw instruction from the missing `out`
module; `process.rs` emits `Action::MoveTo(x, y)` and `Action::Print(s)`. -/
inductive Action where
  | MoveTo : Nat → Nat → Action
  | Print : String → Action
deriving DecidableEq

instance {e a : Type} [DecidableEq e] [DecidableEq a] : DecidableEq (Except e a) := fun x y =>
  match x, y with
  | .ok u, .ok v =>
    if h : u = v then .isTrue (by rw [h]) else .isFalse (by simp [h])
  | .error u, .error v =>
    if h : u = v then .isTrue (by rw [h]) else .isFalse (by simp [h])
  | .ok _, .error _ => .isFalse (by simp)
  | .error _, .ok _ => .isFalse (by simp)

/-- The mutable core entity of `process.rs` (`DrawProcess`). -/
structure DrawProcess where
  start_x : Nat
  start_y : Nat
  end_x : Nat
  end_y : Nat
  divider : Nat
  minus : List TrimmedText
  plus : List TrimmedText
  example_str : String
deriving DecidableEq

namespace DrawProcess

/-- `DrawProcess::new` (process.rs:24-40). -/
def new (val : Grid) (strategy : DividerStrategy) : DrawProcess :=
  { start_x := val.start_x
    start_y := val.start_y
    end_x := val.end_x
    end_y := val.end_y
    divider :=
      match strategy with
      | .Beginning => 0
      | .End => val.end_y - val.start_y
      | .Halfway => (val.end_y - val.start_y) / 2
      | .Pos v => v
    minus := []
    plus := []
    example_str := String.mk (List.replicate (val.end_x - val.start_x) ' ') }

/-- `DrawProcess::width` (process.rs:51-53). -/
def width (p : DrawProcess) : Nat := p.end_x - p.start_x

/-- `DrawProcess::height` (process.rs:64-66). -/
def height (p : DrawProcess) : Nat := p.end_y - p.start_y

/-- `DrawProcess::add_to_section_trimmed` (process.rs:450-465).
Failure (`InternalFormatError::NoSpace(text)`) leaves the process
untouched, so the caller keeps the old state and receives the text back. -/
def add_to_section_trimmed (p : DrawProcess) (text : TrimmedText) (side : Alignment) :
    Except TrimmedText DrawProcess :=
  match side with
  | .Minus =>
    let space := p.divider - p.minus.length
    if space = 0 then .error text
    else .ok { p with minus := p.minus ++ [text] }
  | .Plus =>
    let space := p.end_y - p.start_y - p.divider - p.plus.length
    if space = 0 then .error text
    else .ok { p with plus := p.plus ++ [text] }

end DrawProcess

/-- The trimming policy (trait `TrimStrategy`, missing `trim` module),
abstracted as its two operations as invoked by `process.rs`:
`trim(text, &self, alignment)` and `back(extras, &self, alignment)`. -/
structure TrimPolicy (ι β : Type) where
  trim : ι → DrawProcess → Alignment → List TrimmedText
  back : List TrimmedText → DrawProcess → Alignment → β

/-- The placement loop inside `DrawProcess::add_to_section`
(process.rs:292-304 together with the leftover collection at line 308):
places trimmed lines one at a time; on the first failure returns the state
reached so far together with the leftover lines (the failing line followed
by every not-yet-attempted line). -/
def addLoop (p : DrawProcess) (lines : List TrimmedText) (side : Alignment) :
    DrawProcess × Option (List TrimmedText) :=
  match lines with
  | [] => (p, none)
  | l :: rest =>
    match p.add_to_section_trimmed l side with
    | .ok p' => addLoop p' rest side
    | .error back => (p, some (back :: rest))

namespace DrawProcess

/-- `DrawProcess::add_to_section` (process.rs:290-313). -/
def add_to_section {ι β : Type} (p : DrawProcess) (text : ι) (strategy : TrimPolicy ι β)
    (side : Alignment) : DrawProcess × Except β Unit :=
  let lines := strategy.trim text p side
  match addLoop p lines side with
  | (p', none) => (p', .ok ())
  | (p', some extras) => (p', .error (strategy.back extras p' side))

end DrawProcess

/-- The per-item mapping inside `DrawProcess::add_to_section_lines`
(`text.map(|x| self.add_to_section(x, strategy, section)).collect()`):
threads the process state through the items in the given order. -/
def mapAddState {ι β : Type} (p : DrawProcess) (strategy : TrimPolicy ι β) (side : Alignment) :
    List ι → DrawProcess × List (Except β Unit)
  | [] => (p, [])
  | x :: rest =>
    let r := p.add_to_section x strategy side
    let rs := mapAddState r.1 strategy side rest
    (rs.1, r.2 :: rs.2)

namespace DrawProcess

/-- `DrawProcess::add_to_section_lines` (process.rs:204-224): for `Minus`
the items are reversed before mapping and the results reversed back; for
`Plus` the items are mapped in order. -/
def add_to_section_lines {ι β : Type} (p : DrawProcess) (items : List ι)
    (strategy : TrimPolicy ι β) (side : Alignment) : DrawProcess × List (Except β Unit) :=
  match side with
  | .Minus =>
    let r := mapAddState p strategy side items.reverse
    (r.1, r.2.reverse)
  | .Plus => mapAddState p strategy side items

/-- `DrawProcess::clear` (process.rs:332-339). -/
def clear (p : DrawProcess) (new_strategy : DividerStrategy) : DrawProcess :=
  DrawProcess.new
    { start_x := p.start_x, start_y := p.start_y, end_x := p.end_x, end_y := p.end_y }
    new_strategy

/-- The take amount computed by the `Minus` branch of
`DrawProcess::split_free_space` (process.rs:363-371): free capacity
`divider - max(len(minus), min_left)` (saturating), capped by `max_taken`. -/
def minusTake (p : DrawProcess) (min_left max_taken : Option Nat) : Nat :=
  let space := p.divider
  let space_occupied :=
    match min_left with
    | some v => max p.minus.length v
    | none => p.minus.length
  let total_space := space - space_occupied
  match max_taken with
  | some v => min total_space v
  | none => total_space

/-- The take amount computed by the `Plus` branch of
`DrawProcess::split_free_space` (process.rs:386-397): free capacity
`height - divider - max(len(plus), min_left)` (saturating), capped by
`max_taken`. -/
def plusTake (p : DrawProcess) (min_left max_taken : Option Nat) : Nat :=
  let space := p.end_y - p.start_y - p.divider
  let space_occupied :=
    match min_left with
    | some v => max p.plus.length v
    | none => p.plus.length
  let total_space := space - space_occupied
  match max_taken with
  | some v => min total_space v
  | none => total_space

/-- `DrawProcess::split_free_space` (process.rs:360-411). Note the `Minus`
branch returns the grid exactly as the source writes it: `start_y` is the
already-incremented `self.start_y` minus the take, and `end_y` is the
(unmodified) `self.end_y` minus the take. -/
def split_free_space (p : DrawProcess) (a : Alignment) (min_left max_taken : Option Nat) :
    DrawProcess × Option Grid :=
  match a with
  | .Minus =>
    let total_space := minusTake p min_left max_taken
    if total_space ≠ 0 then
      let p' := { p with start_y := p.start_y + total_space }
      (p', some { start_x := p'.start_x
                  start_y := p'.start_y - total_space
                  end_x := p'.end_x
                  end_y := p'.end_y - total_space })
    else (p, none)
  | .Plus =>
    let total_space := plusTake p min_left max_taken
    if total_space ≠ 0 then
      let p' := { p with end_y := p.end_y - total_space }
      (p', some { start_x := p'.start_x
                  start_y := p'.end_y
                  end_x := p'.end_x
                  end_y := p'.end_y + total_space })
    else (p, none)

/-- `DrawProcess::extend` (process.rs:435-447). -/
def extend (p : DrawProcess) (grid : Grid) : DrawProcess × Except Grid Unit :=
  if p.start_x = grid.start_x ∧ p.end_x = grid.end_x then
    if p.end_y = grid.start_y then
      ({ p with end_y := grid.end_y }, .ok ())
    else if p.start_y = grid.end_y then
      ({ p with start_y := grid.start_y }, .ok ())
    else (p, .error grid)
  else (p, .error grid)

/-- `DrawProcess::shove` (process.rs:496-501). -/
def shove (p : DrawProcess) (direction : Alignment) : DrawProcess :=
  match direction with
  | .Minus => { p with divider := min p.divider p.minus.length }
  | .Plus => { p with divider := max p.divider (p.end_y - p.start_y - p.plus.length) }

end DrawProcess

/-- The blank-fill loops of `grab_actions` (process.rs:510-513 and 525-528):
`for i in a..b` pushing `MoveTo(x, i); Print(fill)`, rendered as a count of
`b - a` iterations starting at `a`. -/
def blankActions (x : Nat) (fill : String) : Nat → Nat → List Action
  | _, 0 => []
  | i, n + 1 => Action.MoveTo x i :: Action.Print fill :: blankActions x fill (i + 1) n

/-- The content loops of `grab_actions` (process.rs:515-523):
`for (i, line) in it.enumerate()` pushing `MoveTo(x, base + i);
Print(line.0)`, rendered with the running row carried as `base`. -/
def lineActions (x : Nat) : Nat → List TrimmedText → List Action
  | _, [] => []
  | base, l :: rest => Action.MoveTo x base :: Action.Print l.txt :: lineActions x (base + 1) rest

namespace DrawProcess

/-- `DrawProcess::grab_actions` (process.rs:504-530). -/
def grab_actions (p : DrawProcess) : List Action :=
  let start_x := p.start_x
  let start_y := p.start_y + p.divider - p.minus.length
  let divider := p.start_y + p.divider
  blankActions start_x p.example_str p.start_y (start_y - p.start_y)
    ++ lineActions start_x start_y p.minus.reverse
    ++ lineActions start_x divider p.plus
    ++ blankActions start_x p.example_str (p.start_y + p.divider + p.plus.length)
        (p.end_y - (p.start_y + p.divider + p.plus.length))

end DrawProcess

/-! ### Checked-subtraction variants

Rust's plain `usize` subtraction panics on underflow. `checkedSub` makes
each such site explicit, and the mirrored definitions below return `none`
exactly when the corresponding Rust code would panic. -/

/-- `a - b` as Rust unchecked `usize` subtraction: `none` on underflow. -/
def checkedSub (a b : Nat) : Option Nat :=
  if b ≤ a then some (a - b) else none

namespace DrawProcess

/-- `DrawProcess::add_to_section_trimmed` with every unchecked `usize`
subtraction (`divider - minus.len()`, `end_y - start_y - divider -
plus.len()`) made explicit; `none` marks the underflow panic. -/
def add_to_section_trimmedChecked (p : DrawProcess) (text : TrimmedText) (side : Alignment) :
    Option (Except TrimmedText DrawProcess) :=
  match side with
  | .Minus =>
    match checkedSub p.divider p.minus.length with
    | none => none
    | some space =>
      if space = 0 then some (.error text)
      else some (.ok { p with minus := p.minus ++ [text] })
  | .Plus =>
    match checkedSub p.end_y p.start_y with
    | none => none
    | some a =>
      match checkedSub a p.divider with
      | none => none
      | some b =>
        match checkedSub b p.plus.length with
        | none => none
        | some space =>
          if space = 0 then some (.error text)
          else some (.ok { p with plus := p.plus ++ [text] })

/-- `DrawProcess::grab_actions` with its one unchecked `usize` subtraction
(`start_y + divider - minus.len()`, process.rs:507) made explicit; the
`for`-range bounds never panic in Rust and stay truncated. -/
def grab_actionsChecked (p : DrawProcess) : Option (List Action) :=
  match checkedSub (p.start_y + p.divider) p.minus.length with
  | none => none
  | some start_y =>
    some (blankActions p.start_x p.example_str p.start_y (start_y - p.start_y)
      ++ lineActions p.start_x start_y p.minus.reverse
      ++ lineActions p.start_x (p.start_y + p.divider) p.plus
      ++ blankActions p.start_x p.example_str (p.start_y + p.divider + p.plus.length)
          (p.end_y - (p.start_y + p.divider + p.plus.length)))

end DrawProcess

/-! ### Specification-side notions used to state the claims -/

/-- The spec's capacity invariant (§3): `len(minus) ≤ divider` and
`divider + len(plus) ≤ height` (the latter is `len(plus) ≤ height − divider`
read over the integers, which also pins the divider inside `[0, height]`). -/
def capInv (p : DrawProcess) : Prop :=
  p.minus.length ≤ p.divider ∧ p.divider + p.plus.length ≤ p.end_y - p.start_y

instance (p : DrawProcess) : Decidable (capInv p) := by
  unfold capInv; infer_instance

/-- The side's list of a process, as targeted by an insertion. -/
def sideList (p : DrawProcess) (side : Alignment) : List TrimmedText :=
  match side with
  | .Minus => p.minus
  | .Plus => p.plus

/-- The number of leading trimmed lines the placement loop of
`add_to_section` succeeds on before the first `NoSpace` failure (all of
them if no failure occurs). -/
def numPlaced (p : DrawProcess) (lines : List TrimmedText) (side : Alignment) : Nat :=
  match lines with
  | [] => 0
  | l :: rest =>
    match p.add_to_section_trimmed l side with
    | .ok p' => numPlaced p' rest side + 1
    | .error _ => 0

/-- The process state in which `add_to_section_lines` attempts item `i`:
for `Plus` the items before `i` have been applied in order; for `Minus` the
items after `i` have been applied in reverse input order. -/
def attemptState {ι β : Type} (p : DrawProcess) (strategy : TrimPolicy ι β) (side : Alignment)
    (items : List ι) (i : Nat) : DrawProcess :=
  match side with
  | .Plus => (mapAddState p strategy side (items.take i)).1
  | .Minus => (mapAddState p strategy side ((items.drop (i + 1)).reverse)).1

/-- The rows targeted by the `MoveTo` instructions of an action list, in
emission order. -/
def moveRows : List Action → List Nat
  | [] => []
  | Action.MoveTo _ y :: rest => y :: moveRows rest
  | Action.Print _ :: rest => moveRows rest

/-- An action list consists exactly of consecutive `MoveTo`/`Print`
instruction pairs. -/
def pairedForm : List Action → Bool
  | [] => true
  | Action.MoveTo _ _ :: Action.Print _ :: rest => pairedForm rest
  | _ => false

/-! ### Concrete instances used by witnesses and counterexamples -/

/-- A concrete well-formed process: bounds `(0,2)-(3,7)`, divider `3`, one
minus line. -/
def pRowCov : DrawProcess :=
  (addLoop (DrawProcess.new ⟨0, 2, 3, 7⟩ (.Pos 3)) [⟨"ab"⟩] .Minus).1

/-- A well-formed process reachable through the public API: bounds
`(0,0)-(10,10)`, divider `5` (Halfway), plus side full with five lines. -/
def pFive : DrawProcess :=
  (addLoop (DrawProcess.new ⟨0, 0, 10, 10⟩ .Halfway) (List.replicate 5 ⟨"x"⟩) .Plus).1

/-- The pass-through trimming policy used for concrete witnesses: the input
is already a list of trimmed lines and `back` hands leftovers back as-is. -/
def trimId : TrimPolicy (List TrimmedText) (List TrimmedText) where
  trim := fun l _ _ => l
  back := fun l _ _ => l

/-- A concrete well-formed process with free space on both sides. -/
def pWit : DrawProcess := DrawProcess.new ⟨0, 0, 4, 9⟩ (.Pos 2)

/-- A process whose plus side holds two free rows (`(0,0)-(6,2)`, divider
`0`), receiving three lines: the third cannot fit. -/
def pOverflow : DrawProcess := DrawProcess.new ⟨0, 0, 6, 2⟩ .Beginning

/-- A fresh Halfway process on bounds `(0,0)-(10,10)`: divider `5`, both
sides empty. -/
def pHalf : DrawProcess := DrawProcess.new ⟨0, 0, 10, 10⟩ .Halfway

/-- A fresh Beginning process on bounds `(0,0)-(10,10)`: all ten rows are
free plus-space. -/
def pFull : DrawProcess := DrawProcess.new ⟨0, 0, 10, 10⟩ .Beginning

/-- A fresh End process on bounds `(0,0)-(6,2)`: divider `2`, so the minus
side holds at most two lines. -/
def pEndCap : DrawProcess := DrawProcess.new ⟨0, 0, 6, 2⟩ .End

/-! ### Lemmas about the instruction-list helpers -/

theorem moveRows_append : ∀ l₁ l₂ : List Action, moveRows (l₁ ++ l₂) = moveRows l₁ ++ moveRows l₂
  | [], _ => rfl
  | Action.MoveTo _ _ :: rest, l₂ => by
    simp [moveRows, moveRows_append rest l₂]
  | Action.Print _ :: rest, l₂ => by
    simp [moveRows, moveRows_append rest l₂]

theorem moveRows_blank (x : Nat) (fill : String) :
    ∀ n i : Nat, moveRows (blankActions x fill i n) = List.range' i n
  | 0, _ => rfl
  | n + 1, i => by
    simp [blankActions, moveRows, List.range'_succ, moveRows_blank x fill n (i + 1)]

theorem moveRows_lines (x : Nat) :
    ∀ (ls : List TrimmedText) (base : Nat),
      moveRows (lineActions x base ls) = List.range' base ls.length
  | [], _ => rfl
  | l :: rest, base => by
    simp [lineActions, moveRows, List.range'_succ, moveRows_lines x rest (base + 1)]

theorem pairedForm_append : ∀ l₁ l₂ : List Action,
    pairedForm l₁ = true → pairedForm l₂ = true → pairedForm (l₁ ++ l₂) = true
  | [], _, _, h₂ => h₂
  | Action.MoveTo _ _ :: Action.Print _ :: rest, l₂, h₁, h₂ => by
    simp only [pairedForm] at h₁
    simpa [pairedForm] using pairedForm_append rest l₂ h₁ h₂
  | [Action.MoveTo _ _], _, h₁, _ => by simp [pairedForm] at h₁
  | Action.MoveTo _ _ :: Action.MoveTo _ _ :: _, _, h₁, _ => by simp [pairedForm] at h₁
  | Action.Print _ :: _, _, h₁, _ => by simp [pairedForm] at h₁

theorem pairedForm_blank (x : Nat) (fill : String) :
    ∀ n i : Nat, pairedForm (blankActions x fill i n) = true
  | 0, _ => rfl
  | n + 1, i => by simpa [blankActions, pairedForm] using pairedForm_blank x fill n (i + 1)

theorem pairedForm_lines (x : Nat) :
    ∀ (ls : List TrimmedText) (base : Nat), pairedForm (lineActions x base ls) = true
  | [], _ => rfl
  | _ :: rest, base => by simpa [lineActions, pairedForm] using pairedForm_lines x rest (base + 1)

theorem length_blank (x : Nat) (fill : String) :
    ∀ n i : Nat, (blankActions x fill i n).length = 2 * n
  | 0, _ => rfl
  | n + 1, i => by simp [blankActions, length_blank x fill n (i + 1)]; omega

theorem length_lines (x : Nat) :
    ∀ (ls : List TrimmedText) (base : Nat), (lineActions x base ls).length = 2 * ls.length
  | [], _ => rfl
  | _ :: rest, base => by simp [lineActions, length_lines x rest (base + 1)]; omega

/-- Claim C4: for a Section Process satisfying the data-model invariants
(§3: `start_y ≤ end_y`, `len(minus) ≤ divider`, `divider + len(plus) ≤
height`), `grab_actions` emits exactly `H = end_y − start_y`
position+content instruction pairs, one pair per row `y ∈ [start_y, end_y)`
in top-to-bottom order, with no row skipped and none duplicated. -/
theorem grab_actions_row_coverage (p : DrawProcess)
    (h1 : p.minus.length ≤ p.divider)
    (h2 : p.divider + p.plus.length ≤ p.end_y - p.start_y)
    (h3 : p.start_y ≤ p.end_y) :
    pairedForm p.grab_actions = true
    ∧ moveRows p.grab_actions = List.range' p.start_y (p.end_y - p.start_y)
    ∧ p.grab_actions.length = 2 * (p.end_y - p.start_y) := by
  refine ⟨?_, ?_, ?_⟩
  · simp only [DrawProcess.grab_actions]
    refine pairedForm_append _ _ ?_ (pairedForm_blank _ _ _ _)
    refine pairedForm_append _ _ ?_ (pairedForm_lines _ _ _)
    exact pairedForm_append _ _ (pairedForm_blank _ _ _ _) (pairedForm_lines _ _ _)
  · simp only [DrawProcess.grab_actions, moveRows_append, moveRows_blank, moveRows_lines,
      List.length_reverse]
    have e1 : p.start_y + p.divider - p.minus.length - p.start_y = p.divider - p.minus.length := by
      omega
    rw [e1]
    have g1 : List.range' p.start_y (p.divider - p.minus.length)
        ++ List.range' (p.start_y + p.divider - p.minus.length) p.minus.length
        = List.range' p.start_y p.divider := by
      have := List.range'_append p.start_y (p.divider - p.minus.length) p.minus.length 1
      simp only [one_mul] at this
      have e2 : p.start_y + (p.divider - p.minus.length)
          = p.start_y + p.divider - p.minus.length := by omega
      have e3 : p.minus.length + (p.divider - p.minus.length) = p.divider := by omega
      rw [e2, e3] at this
      exact this
    have g2 : List.range' p.start_y p.divider ++ List.range' (p.start_y + p.divider) p.plus.length
        = List.range' p.start_y (p.divider + p.plus.length) := by
      have := List.range'_append p.start_y p.divider p.plus.length 1
      simp only [one_mul] at this
      rw [Nat.add_comm p.plus.length p.divider] at this
      exact this
    have g3 : List.range' p.start_y (p.divider + p.plus.length)
        ++ List.range' (p.start_y + p.divider + p.plus.length)
            (p.end_y - (p.start_y + p.divider + p.plus.length))
        = List.range' p.start_y (p.end_y - p.start_y) := by
      have := List.range'_append p.start_y (p.divider + p.plus.length)
        (p.end_y - (p.start_y + p.divider + p.plus.length)) 1
      simp only [one_mul] at this
      have e4 : p.start_y + (p.divider + p.plus.length)
          = p.start_y + p.divider + p.plus.length := by omega
      have e5 : p.end_y - (p.start_y + p.divider + p.plus.length) + (p.divider + p.plus.length)
          = p.end_y - p.start_y := by omega
      rw [e4, e5] at this
      exact this
    rw [g1, g2, g3]
  · simp only [DrawProcess.grab_actions, List.length_append, length_blank, length_lines,
      List.length_reverse]
    omega

theorem grab_actions_row_coverage_witness :
    (pRowCov.minus.length ≤ pRowCov.divider
      ∧ pRowCov.divider + pRowCov.plus.length ≤ pRowCov.end_y - pRowCov.start_y
      ∧ pRowCov.start_y ≤ pRowCov.end_y)
    ∧ pairedForm pRowCov.grab_actions = true
    ∧ moveRows pRowCov.grab_actions = List.range' pRowCov.start_y (pRowCov.end_y - pRowCov.start_y)
    ∧ pRowCov.grab_actions.length = 2 * (pRowCov.end_y - pRowCov.start_y) :=
  ⟨by decide, grab_actions_row_coverage pRowCov (by decide) (by decide) (by decide)⟩

/-! ### Capacity invariant -/

theorem capInv_trimmed (p p' : DrawProcess) (t : TrimmedText) (side : Alignment)
    (hp : capInv p) (h : p.add_to_section_trimmed t side = .ok p') : capInv p' := by
  cases side with
  | Minus =>
    simp only [DrawProcess.add_to_section_trimmed] at h
    split at h
    · exact absurd h (by simp)
    · simp only [Except.ok.injEq] at h
      subst h
      unfold capInv at hp ⊢
      simp only [List.length_append, List.length_singleton]
      omega
  | Plus =>
    simp only [DrawProcess.add_to_section_trimmed] at h
    split at h
    · exact absurd h (by simp)
    · simp only [Except.ok.injEq] at h
      subst h
      unfold capInv at hp ⊢
      simp only [List.length_append, List.length_singleton]
      omega

theorem capInv_addLoop : ∀ (lines : List TrimmedText) (p : DrawProcess) (side : Alignment),
    capInv p → capInv (addLoop p lines side).1
  | [], _, _, hp => hp
  | l :: rest, p, side, hp => by
    simp only [addLoop]
    cases h : p.add_to_section_trimmed l side with
    | ok p' => exact capInv_addLoop rest p' side (capInv_trimmed p p' l side hp h)
    | error t => exact hp

theorem minusTake_le (p : DrawProcess) (ml mt : Option Nat) :
    p.minusTake ml mt ≤ p.divider - p.minus.length := by
  unfold DrawProcess.minusTake
  cases ml <;> cases mt <;> simp <;> omega

theorem plusTake_le (p : DrawProcess) (ml mt : Option Nat) :
    p.plusTake ml mt ≤ p.end_y - p.start_y - p.divider - p.plus.length := by
  unfold DrawProcess.plusTake
  cases ml <;> cases mt <;> simp <;> omega

theorem capInv_new_Beginning (g : Grid) : capInv (DrawProcess.new g .Beginning) := by
  unfold capInv DrawProcess.new; simp

theorem capInv_new_End (g : Grid) : capInv (DrawProcess.new g .End) := by
  unfold capInv DrawProcess.new; simp

theorem capInv_new_Halfway (g : Grid) : capInv (DrawProcess.new g .Halfway) := by
  unfold capInv DrawProcess.new; simp; omega

theorem capInv_new_Pos (g : Grid) (v : Nat) (hv : v ≤ g.end_y - g.start_y) :
    capInv (DrawProcess.new g (.Pos v)) := by
  unfold capInv DrawProcess.new; simp; omega

/-- Claim C2 (amended): the capacity invariant `len(minus) ≤ divider ∧
divider + len(plus) ≤ height` holds after construction with `Beginning`,
`End`, `Halfway`, and with `Pos v` when `v ≤ height`; it is preserved by
`add_to_section`, by `split_free_space` on the plus side, by `extend` with
a well-formed candidate viewport, by `shove` on either side, and by
`clear` (again with `Pos v` only when `v ≤ height`); and it is preserved
by `split_free_space` on the minus side when the rows taken still leave
room for the plus content, i.e. `divider + len(plus) + take ≤ height`
(without that proviso the minus split can violate it, because the divider
offset is not adjusted when `start_y` moves). -/
theorem capInv_preserved {ι β : Type} (p : DrawProcess) (g : Grid) (v : Nat)
    (input : ι) (strategy : TrimPolicy ι β) (side d : Alignment)
    (ml mt : Option Nat) (cg : Grid) :
    capInv (DrawProcess.new g .Beginning)
    ∧ capInv (DrawProcess.new g .End)
    ∧ capInv (DrawProcess.new g .Halfway)
    ∧ (v ≤ g.end_y - g.start_y → capInv (DrawProcess.new g (.Pos v)))
    ∧ (capInv p → capInv (p.add_to_section input strategy side).1)
    ∧ (capInv p → capInv (p.split_free_space .Plus ml mt).1)
    ∧ (capInv p →
        p.divider + p.plus.length + p.minusTake ml mt ≤ p.end_y - p.start_y →
        capInv (p.split_free_space .Minus ml mt).1)
    ∧ (capInv p → cg.start_y ≤ cg.end_y → capInv (p.extend cg).1)
    ∧ (capInv p → capInv (p.shove d))
    ∧ capInv (p.clear .Beginning)
    ∧ capInv (p.clear .End)
    ∧ capInv (p.clear .Halfway)
    ∧ (v ≤ p.end_y - p.start_y → capInv (p.clear (.Pos v))) := by
  refine ⟨capInv_new_Beginning g, capInv_new_End g, capInv_new_Halfway g,
    fun hv => capInv_new_Pos g v hv, ?_, ?_, ?_, ?_, ?_, ?_, ?_, ?_, ?_⟩
  · intro hp
    have hA := capInv_addLoop (strategy.trim input p side) p side hp
    simp only [DrawProcess.add_to_section]
    rcases hE : addLoop p (strategy.trim input p side) side with ⟨p', o⟩
    rw [hE] at hA
    cases o <;> simpa using hA
  · intro hp
    have hle := plusTake_le p ml mt
    simp only [DrawProcess.split_free_space]
    split
    · unfold capInv at hp ⊢
      simp only []
      omega
    · exact hp
  · intro hp hm
    have hle := minusTake_le p ml mt
    simp only [DrawProcess.split_free_space]
    split
    · unfold capInv at hp ⊢
      simp only []
      omega
    · exact hp
  · intro hp hcg
    simp only [DrawProcess.extend]
    split
    · split
      · next hEnd =>
        unfold capInv at hp ⊢
        simp only []
        omega
      · split
        · next hStart =>
          unfold capInv at hp ⊢
          simp only []
          omega
        · exact hp
    · exact hp
  · intro hp
    cases d with
    | Minus =>
      unfold capInv at hp ⊢
      simp only [DrawProcess.shove]
      omega
    | Plus =>
      unfold capInv at hp ⊢
      simp only [DrawProcess.shove]
      omega
  · exact capInv_new_Beginning _
  · exact capInv_new_End _
  · exact capInv_new_Halfway _
  · exact fun hv2 => capInv_new_Pos _ v (by simpa using hv2)

/-- Claim C2 counterexample: `pFive` satisfies the capacity invariant, yet
a minus-side `split_free_space` (which takes the five free minus rows and
moves `start_y` to `5` without touching the divider) leaves a process with
`divider + len(plus) = 10 > height = 5`: the invariant does not hold at
all times. -/
theorem capInv_broken_by_minus_split :
    capInv pFive ∧ ¬ capInv ((pFive.split_free_space .Minus none none).1) := by
  constructor <;> decide

/-! ### Insertion: first-failure semantics (`add_to_section`) -/

theorem trimmed_error_eq (p : DrawProcess) (t t' : TrimmedText) (side : Alignment)
    (h : p.add_to_section_trimmed t side = .error t') : t' = t := by
  cases side <;>
    (simp only [DrawProcess.add_to_section_trimmed] at h
     split at h <;> simp_all)

theorem sideList_trimmed_ok (p p' : DrawProcess) (t : TrimmedText) (side : Alignment)
    (h : p.add_to_section_trimmed t side = .ok p') :
    sideList p' side = sideList p side ++ [t] := by
  cases side <;>
    (simp only [DrawProcess.add_to_section_trimmed] at h
     split at h <;> (try (simp only [Except.ok.injEq] at h; subst h)) <;> simp_all [sideList])

/-- Characterization of the placement loop: with `k` successes before the
first failure, the target list has gained exactly the first `k` lines, and
the leftover (when any line failed) is exactly the lines from position `k`
on, in original order. -/
theorem addLoop_spec : ∀ (lines : List TrimmedText) (p : DrawProcess) (side : Alignment),
    sideList (addLoop p lines side).1 side
      = sideList p side ++ lines.take (numPlaced p lines side)
    ∧ (addLoop p lines side).2
      = (if numPlaced p lines side = lines.length then none
         else some (lines.drop (numPlaced p lines side)))
  | [], p, side => by simp [addLoop, numPlaced]
  | l :: rest, p, side => by
    simp only [addLoop, numPlaced]
    cases h : p.add_to_section_trimmed l side with
    | ok p' =>
      obtain ⟨ih1, ih2⟩ := addLoop_spec rest p' side
      refine ⟨?_, ?_⟩
      · rw [ih1, sideList_trimmed_ok p p' l side h]
        simp [List.take_succ_cons]
      · rw [ih2]
        simp only [List.length_cons, List.drop_succ_cons]
        by_cases hk : numPlaced p' rest side = rest.length <;> simp [hk]
    | error t =>
      obtain rfl := trimmed_error_eq p l t side h
      simp

/-- Claim C5: when trimming an input yields lines `L1..Ln`,
`add_to_section` appends to the target side's list exactly the longest
placeable prefix `L1..Lk` (in order, no rollback); if all lines fit it
returns success, otherwise it returns `NoSpace` whose payload is the
policy's `back` applied to exactly the failing line and every
not-yet-attempted line `[Lk+1..Ln]` in original order (together with the
partially-updated process, as the source passes `&self`). -/
theorem add_to_section_first_failure {ι β : Type} (p : DrawProcess) (input : ι)
    (strategy : TrimPolicy ι β) (side : Alignment) (lines : List TrimmedText)
    (h : strategy.trim input p side = lines) :
    sideList (p.add_to_section input strategy side).1 side
      = sideList p side ++ lines.take (numPlaced p lines side)
    ∧ (numPlaced p lines side = lines.length →
        (p.add_to_section input strategy side).2 = .ok ())
    ∧ (numPlaced p lines side ≠ lines.length →
        (p.add_to_section input strategy side).2
          = .error (strategy.back (lines.drop (numPlaced p lines side))
              (p.add_to_section input strategy side).1 side)) := by
  obtain ⟨h1, h2⟩ := addLoop_spec lines p side
  simp only [DrawProcess.add_to_section, h]
  rcases hE : addLoop p lines side with ⟨p', o⟩
  rw [hE] at h1 h2
  by_cases hk : numPlaced p lines side = lines.length
  · simp only [hk, if_pos rfl] at h2
    subst h2
    simpa [hk] using h1
  · rw [if_neg hk] at h2
    subst h2
    refine ⟨by simpa using h1, by simp [hk], fun _ => by simp⟩

theorem add_to_section_first_failure_witness :
    trimId.trim [⟨"aa"⟩, ⟨"bb"⟩, ⟨"cc"⟩] pOverflow .Plus = [⟨"aa"⟩, ⟨"bb"⟩, ⟨"cc"⟩]
    ∧ sideList (pOverflow.add_to_section [⟨"aa"⟩, ⟨"bb"⟩, ⟨"cc"⟩] trimId .Plus).1 .Plus
        = sideList pOverflow .Plus
            ++ List.take (numPlaced pOverflow [⟨"aa"⟩, ⟨"bb"⟩, ⟨"cc"⟩] .Plus)
                [⟨"aa"⟩, ⟨"bb"⟩, ⟨"cc"⟩]
    ∧ (numPlaced pOverflow [⟨"aa"⟩, ⟨"bb"⟩, ⟨"cc"⟩] .Plus
          ≠ ([⟨"aa"⟩, ⟨"bb"⟩, ⟨"cc"⟩] : List TrimmedText).length →
        (pOverflow.add_to_section [⟨"aa"⟩, ⟨"bb"⟩, ⟨"cc"⟩] trimId .Plus).2
          = .error (trimId.back
              (List.drop (numPlaced pOverflow [⟨"aa"⟩, ⟨"bb"⟩, ⟨"cc"⟩] .Plus)
                [⟨"aa"⟩, ⟨"bb"⟩, ⟨"cc"⟩])
              (pOverflow.add_to_section [⟨"aa"⟩, ⟨"bb"⟩, ⟨"cc"⟩] trimId .Plus).1 .Plus)) :=
  ⟨by decide,
   (add_to_section_first_failure pOverflow [⟨"aa"⟩, ⟨"bb"⟩, ⟨"cc"⟩] trimId .Plus
      [⟨"aa"⟩, ⟨"bb"⟩, ⟨"cc"⟩] (by decide)).1,
   (add_to_section_first_failure pOverflow [⟨"aa"⟩, ⟨"bb"⟩, ⟨"cc"⟩] trimId .Plus
      [⟨"aa"⟩, ⟨"bb"⟩, ⟨"cc"⟩] (by decide)).2.2⟩

theorem capInv_preserved_witness :
    capInv pWit
    ∧ capInv ((pWit.split_free_space .Minus none none).1)
    ∧ capInv (pWit.shove .Plus)
    ∧ capInv ((pFive.split_free_space .Plus none none).1) :=
  ⟨by decide,
   (capInv_preserved pWit ⟨0, 0, 4, 9⟩ 2 ([] : List TrimmedText) trimId .Plus .Plus
      none none ⟨0, 9, 4, 12⟩).2.2.2.2.2.2.1 (by decide) (by decide),
   (capInv_preserved pWit ⟨0, 0, 4, 9⟩ 2 ([] : List TrimmedText) trimId .Plus .Plus
      none none ⟨0, 9, 4, 12⟩).2.2.2.2.2.2.2.2.1 (by decide),
   (capInv_preserved pFive ⟨0, 0, 10, 10⟩ 0 ([] : List TrimmedText) trimId .Plus .Plus
      none none ⟨0, 10, 10, 12⟩).2.2.2.2.2.1 (by decide)⟩

/-! ### Space reclamation and merging -/

/-- Claim C1, evaluated at the failing input: on the minus side with
`max_taken = 2` the take amount is `T = 2` and the bounds are shrunk
correctly (`start_y` goes `0 → 2`), but the returned Grid is
`(0,0)-(10,8)`: its `end_y` is `old end_y − T = 8`, not
`old start_y + T = 2`, so the returned viewport is not the two reclaimed
rows `[0, 2)` (it even overlaps the rows `[2, 10)` the process kept). The
plus branch, by contrast, does return exactly the reclaimed rows. -/
theorem split_free_space_minus_wrong_grid :
    (pHalf.split_free_space .Minus none (some 2)).1.start_y = pHalf.start_y + 2
    ∧ (pHalf.split_free_space .Minus none (some 2)).2 = some ⟨0, 0, 10, 8⟩
    ∧ (pHalf.split_free_space .Minus none (some 2)).2 ≠ some ⟨0, 0, 10, 2⟩
    ∧ (pHalf.split_free_space .Plus none (some 2)).2
        = some ⟨0, 8, 10, 10⟩ := by decide

/-- Claim C6 (amended): the divider produced by construction is `0` for
`Beginning`, `height` for `End`, `height / 2` (integer division) for
`Halfway` — each of which lies in `[0, height]` — and exactly `v` for an
explicit `Pos v`, which lies in `[0, height]` only under the proviso
`v ≤ height` (the constructor does not clamp it). -/
theorem new_divider_placement (g : Grid) (v : Nat) (hv : v ≤ g.end_y - g.start_y) :
    (DrawProcess.new g .Beginning).divider = 0
    ∧ (DrawProcess.new g .End).divider = g.end_y - g.start_y
    ∧ (DrawProcess.new g .Halfway).divider = (g.end_y - g.start_y) / 2
    ∧ (DrawProcess.new g (.Pos v)).divider = v
    ∧ (DrawProcess.new g .Beginning).divider ≤ g.end_y - g.start_y
    ∧ (DrawProcess.new g .End).divider ≤ g.end_y - g.start_y
    ∧ (DrawProcess.new g .Halfway).divider ≤ g.end_y - g.start_y
    ∧ (DrawProcess.new g (.Pos v)).divider ≤ g.end_y - g.start_y := by
  refine ⟨rfl, rfl, rfl, rfl, ?_, ?_, ?_, ?_⟩ <;> simp [DrawProcess.new] <;> omega

/-- Claim C6 counterexample: constructing on height `10` with the explicit
strategy `Pos 11` yields divider `11`, outside `[0, height]`. -/
theorem new_Pos_out_of_range :
    (DrawProcess.new ⟨0, 0, 10, 10⟩ (.Pos 11)).divider = 11
    ∧ ¬ (DrawProcess.new ⟨0, 0, 10, 10⟩ (.Pos 11)).divider
        ≤ (DrawProcess.new ⟨0, 0, 10, 10⟩ (.Pos 11)).end_y
          - (DrawProcess.new ⟨0, 0, 10, 10⟩ (.Pos 11)).start_y := by decide

theorem new_divider_placement_witness :
    ((2 : Nat) ≤ (⟨0, 0, 10, 10⟩ : Grid).end_y - (⟨0, 0, 10, 10⟩ : Grid).start_y)
    ∧ (DrawProcess.new ⟨0, 0, 10, 10⟩ (.Pos 2)).divider = 2
    ∧ (DrawProcess.new ⟨0, 0, 10, 10⟩ (.Pos 2)).divider
        ≤ (⟨0, 0, 10, 10⟩ : Grid).end_y - (⟨0, 0, 10, 10⟩ : Grid).start_y :=
  ⟨by decide,
   (new_divider_placement ⟨0, 0, 10, 10⟩ 2 (by decide)).2.2.2.1,
   (new_divider_placement ⟨0, 0, 10, 10⟩ 2 (by decide)).2.2.2.2.2.2.2⟩

/-- Claim C8: `shove` never touches the two line lists, the bounds, or the
blank-fill line — only the divider — and the divider becomes
`min(divider, len(minus))` toward minus, and
`max(divider, height − len(plus))` toward plus. -/
theorem shove_only_divider (p : DrawProcess) (d : Alignment) :
    (p.shove d).minus = p.minus
    ∧ (p.shove d).plus = p.plus
    ∧ (p.shove d).start_x = p.start_x
    ∧ (p.shove d).start_y = p.start_y
    ∧ (p.shove d).end_x = p.end_x
    ∧ (p.shove d).end_y = p.end_y
    ∧ (p.shove d).example_str = p.example_str
    ∧ (p.shove .Minus).divider = min p.divider p.minus.length
    ∧ (p.shove .Plus).divider = max p.divider (p.end_y - p.start_y - p.plus.length) := by
  cases d <;> simp [DrawProcess.shove]

/-- Claim C9: under `start_y ≤ end_y`, `len(minus) ≤ divider` and
`divider + len(plus) ≤ height`, every unchecked `usize` subtraction in
`add_to_section_trimmed` and in `grab_actions` is underflow-free: the
checked variants return `some` of exactly the unchecked results, so
insertion and instruction generation are panic-free there. -/
theorem no_underflow (p : DrawProcess) (t : TrimmedText) (side : Alignment)
    (h1 : p.start_y ≤ p.end_y)
    (h2 : p.minus.length ≤ p.divider)
    (h3 : p.divider + p.plus.length ≤ p.end_y - p.start_y) :
    p.add_to_section_trimmedChecked t side = some (p.add_to_section_trimmed t side)
    ∧ p.grab_actionsChecked = some p.grab_actions := by
  constructor
  · cases side with
    | Minus =>
      simp only [DrawProcess.add_to_section_trimmedChecked, DrawProcess.add_to_section_trimmed,
        checkedSub, if_pos h2]
      split <;> rfl
    | Plus =>
      have c2 : p.divider ≤ p.end_y - p.start_y := by omega
      have c3 : p.plus.length ≤ p.end_y - p.start_y - p.divider := by omega
      simp only [DrawProcess.add_to_section_trimmedChecked, DrawProcess.add_to_section_trimmed,
        checkedSub, if_pos h1, if_pos c2, if_pos c3]
      split <;> rfl
  · have c : p.minus.length ≤ p.start_y + p.divider := by omega
    simp only [DrawProcess.grab_actionsChecked, DrawProcess.grab_actions, checkedSub, if_pos c]

theorem no_underflow_witness :
    (pRowCov.start_y ≤ pRowCov.end_y)
    ∧ pRowCov.add_to_section_trimmedChecked ⟨"z"⟩ .Plus
        = some (pRowCov.add_to_section_trimmed ⟨"z"⟩ .Plus)
    ∧ pRowCov.grab_actionsChecked = some pRowCov.grab_actions :=
  ⟨by decide,
   (no_underflow pRowCov ⟨"z"⟩ .Plus (by decide) (by decide) (by decide)).1,
   (no_underflow pRowCov ⟨"z"⟩ .Plus (by decide) (by decide) (by decide)).2⟩

/-- Claim C10: `extend` never touches the divider, the two line lists, the
blank-fill line, or the x-bounds; on success (for a well-formed candidate)
exactly one vertical bound moves — `end_y` is raised to the candidate's
`end_y` when the candidate starts at the process's `end_y`, otherwise
`start_y` is lowered to the candidate's `start_y` when the candidate ends
at the process's `start_y` — and on rejection the process is unchanged. -/
theorem extend_frame (p : DrawProcess) (g : Grid) (hg : g.start_y ≤ g.end_y) :
    ((p.extend g).1.divider = p.divider
      ∧ (p.extend g).1.minus = p.minus
      ∧ (p.extend g).1.plus = p.plus
      ∧ (p.extend g).1.example_str = p.example_str
      ∧ (p.extend g).1.start_x = p.start_x
      ∧ (p.extend g).1.end_x = p.end_x)
    ∧ ((p.extend g).2 = .ok () →
        (g.start_y = p.end_y ∧ (p.extend g).1.end_y = g.end_y
          ∧ (p.extend g).1.start_y = p.start_y ∧ p.end_y ≤ (p.extend g).1.end_y)
        ∨ (g.end_y = p.start_y ∧ (p.extend g).1.start_y = g.start_y
          ∧ (p.extend g).1.end_y = p.end_y ∧ (p.extend g).1.start_y ≤ p.start_y))
    ∧ (∀ g' : Grid, (p.extend g).2 = .error g' → (p.extend g).1 = p ∧ g' = g) := by
  simp only [DrawProcess.extend]
  split
  · split
    · next hEnd =>
      refine ⟨by simp, fun _ => Or.inl ⟨hEnd.symm, by simp, by simp, by simp; omega⟩,
        fun g' hc => by simp at hc⟩
    · split
      · next hne hStart =>
        refine ⟨by simp, fun _ => Or.inr ⟨hStart.symm, by simp, by simp, by simp; omega⟩,
          fun g' hc => by simp at hc⟩
      · exact ⟨by simp, fun hc => by simp at hc, fun g' hc => by simp at hc; simp [hc]⟩
  · exact ⟨by simp, fun hc => by simp at hc, fun g' hc => by simp at hc; simp [hc]⟩

theorem extend_frame_witness :
    ((⟨0, 10, 10, 12⟩ : Grid).start_y ≤ (⟨0, 10, 10, 12⟩ : Grid).end_y)
    ∧ (pHalf.extend ⟨0, 10, 10, 12⟩).1.minus = pHalf.minus
    ∧ (((⟨0, 10, 10, 12⟩ : Grid).start_y = pHalf.end_y
        ∧ (pHalf.extend ⟨0, 10, 10, 12⟩).1.end_y = (⟨0, 10, 10, 12⟩ : Grid).end_y
        ∧ (pHalf.extend ⟨0, 10, 10, 12⟩).1.start_y = pHalf.start_y
        ∧ pHalf.end_y ≤ (pHalf.extend ⟨0, 10, 10, 12⟩).1.end_y)
      ∨ ((⟨0, 10, 10, 12⟩ : Grid).end_y = pHalf.start_y
        ∧ (pHalf.extend ⟨0, 10, 10, 12⟩).1.start_y = (⟨0, 10, 10, 12⟩ : Grid).start_y
        ∧ (pHalf.extend ⟨0, 10, 10, 12⟩).1.end_y = pHalf.end_y
        ∧ (pHalf.extend ⟨0, 10, 10, 12⟩).1.start_y ≤ pHalf.start_y)) :=
  ⟨by decide,
   (extend_frame pHalf ⟨0, 10, 10, 12⟩ (by decide)).1.2.1,
   (extend_frame pHalf ⟨0, 10, 10, 12⟩ (by decide)).2.1 (by decide)⟩

/-- Claim C3: a plus-side `split_free_space(Plus, None, None)` that
returns a viewport composes with `extend` to restore the original four
bounds exactly (the returned viewport starts at the shrunken `end_y`, so
`extend` takes its below-adjacency branch and raises `end_y` back); and
`extend` with any viewport whose x-bounds mismatch rejects it, returning
the viewport unchanged and leaving the process unchanged. -/
theorem split_extend_roundtrip (p p' q : DrawProcess) (g cg : Grid)
    (h : p.split_free_space .Plus none none = (p', some g))
    (hx : cg.start_x ≠ q.start_x ∨ cg.end_x ≠ q.end_x) :
    (p'.extend g).2 = .ok ()
    ∧ (p'.extend g).1.start_x = p.start_x
    ∧ (p'.extend g).1.start_y = p.start_y
    ∧ (p'.extend g).1.end_x = p.end_x
    ∧ (p'.extend g).1.end_y = p.end_y
    ∧ q.extend cg = (q, .error cg) := by
  have hq : q.extend cg = (q, .error cg) := by
    simp only [DrawProcess.extend]
    rw [if_neg]
    rintro ⟨hc1, hc2⟩
    rcases hx with hx | hx
    · exact hx hc1.symm
    · exact hx hc2.symm
  have hle := plusTake_le p none none
  simp only [DrawProcess.split_free_space] at h
  split at h
  · simp only [Prod.mk.injEq, Option.some.injEq] at h
    obtain ⟨rfl, rfl⟩ := h
    refine ⟨?_, ?_, ?_, ?_, ?_, hq⟩ <;> simp [DrawProcess.extend]
    omega
  · simp at h

theorem split_extend_roundtrip_witness :
    pFull.split_free_space .Plus none none
      = ({ pFull with end_y := 0 }, some ⟨0, 0, 10, 10⟩)
    ∧ (({ pFull with end_y := 0 } : DrawProcess).extend ⟨0, 0, 10, 10⟩).2 = .ok ()
    ∧ (({ pFull with end_y := 0 } : DrawProcess).extend ⟨0, 0, 10, 10⟩).1.end_y = pFull.end_y
    ∧ pFull.extend ⟨1, 10, 9, 12⟩ = (pFull, .error ⟨1, 10, 9, 12⟩) :=
  ⟨by decide,
   (split_extend_roundtrip pFull { pFull with end_y := 0 } pFull ⟨0, 0, 10, 10⟩ ⟨1, 10, 9, 12⟩
      (by decide) (by decide)).1,
   (split_extend_roundtrip pFull { pFull with end_y := 0 } pFull ⟨0, 0, 10, 10⟩ ⟨1, 10, 9, 12⟩
      (by decide) (by decide)).2.2.2.2.1,
   (split_extend_roundtrip pFull { pFull with end_y := 0 } pFull ⟨0, 0, 10, 10⟩ ⟨1, 10, 9, 12⟩
      (by decide) (by decide)).2.2.2.2.2⟩

/-! ### Multi-item insertion (`add_to_section_lines`) -/

theorem mapAddState_length {ι β : Type} (strategy : TrimPolicy ι β) (side : Alignment) :
    ∀ (items : List ι) (p : DrawProcess),
      (mapAddState p strategy side items).2.length = items.length
  | [], _ => rfl
  | x :: rest, p => by
    simp only [mapAddState, List.length_cons]
    rw [mapAddState_length strategy side rest]

theorem mapAddState_getElem {ι β : Type} (strategy : TrimPolicy ι β) (side : Alignment) :
    ∀ (items : List ι) (p : DrawProcess) (i : Nat) (h : i < items.length),
      (mapAddState p strategy side items).2[i]?
        = some (((mapAddState p strategy side (items.take i)).1.add_to_section
            (items.get ⟨i, h⟩) strategy side).2)
  | [], _, i, h => absurd h (by simp)
  | x :: rest, p, 0, h => by
    simp [mapAddState]
  | x :: rest, p, i + 1, h => by
    simp only [mapAddState, List.getElem?_cons_succ, List.take_succ_cons, List.get]
    rw [mapAddState_getElem strategy side rest (p.add_to_section x strategy side).1 i
      (by simpa using h)]

/-- Claim C7: `add_to_section_lines` returns one result per input item,
aligned by position: for `Plus`, result `i` is the outcome of attempting
item `i` after the items before it (forward order); for `Minus`, the items
are attempted in reverse input order — result `i` is the outcome of
attempting item `i` after the items following it — and the result list is
reversed back to input order. Every item is attempted, so one item's
overflow does not stop later items; and the final state is that of the
full attempt sequence in the corresponding order. -/
theorem add_to_section_lines_aligned {ι β : Type} (p : DrawProcess) (strategy : TrimPolicy ι β)
    (side : Alignment) (items : List ι) (i : Nat) (h : i < items.length) :
    (p.add_to_section_lines items strategy side).2.length = items.length
    ∧ (p.add_to_section_lines items strategy side).2[i]?
        = some (((attemptState p strategy side items i).add_to_section
            (items.get ⟨i, h⟩) strategy side).2)
    ∧ (p.add_to_section_lines items strategy .Minus).1
        = (mapAddState p strategy .Minus items.reverse).1
    ∧ (p.add_to_section_lines items strategy .Plus).1
        = (mapAddState p strategy .Plus items).1 := by
  refine ⟨?_, ?_, rfl, rfl⟩
  · cases side with
    | Minus =>
      simp only [DrawProcess.add_to_section_lines]
      rw [List.length_reverse, mapAddState_length strategy .Minus items.reverse,
        List.length_reverse]
    | Plus =>
      simp only [DrawProcess.add_to_section_lines]
      rw [mapAddState_length]
  · cases side with
    | Minus =>
      simp only [DrawProcess.add_to_section_lines, attemptState]
      have hlen : (mapAddState p strategy .Minus items.reverse).2.length = items.length := by
        rw [mapAddState_length, List.length_reverse]
      have hi : i < (mapAddState p strategy .Minus items.reverse).2.length := by omega
      rw [List.getElem?_reverse hi, hlen]
      have hrev : items.length - 1 - i < items.reverse.length := by
        rw [List.length_reverse]; omega
      rw [mapAddState_getElem strategy .Minus items.reverse p (items.length - 1 - i) hrev]
      have hcut : items.length - (i + 1) = items.length - 1 - i := by omega
      have e1 : (items.drop (i + 1)).reverse = items.reverse.take (items.length - 1 - i) := by
        rw [List.reverse_drop, hcut]
      have e2 : items.reverse.get ⟨items.length - 1 - i, hrev⟩ = items.get ⟨i, h⟩ := by
        have hidx : items.length - 1 - (items.length - 1 - i) = i := by omega
        simp only [List.get_eq_getElem, List.getElem_reverse, hidx]
      rw [e1, e2]
    | Plus =>
      simp only [DrawProcess.add_to_section_lines, attemptState]
      exact mapAddState_getElem strategy .Plus items p i h

theorem add_to_section_lines_aligned_witness :
    ((0 : Nat) < ([[⟨"a"⟩], [⟨"b"⟩], [⟨"c"⟩]] : List (List TrimmedText)).length)
    ∧ (pEndCap.add_to_section_lines [[⟨"a"⟩], [⟨"b"⟩], [⟨"c"⟩]] trimId .Minus).2.length
        = ([[⟨"a"⟩], [⟨"b"⟩], [⟨"c"⟩]] : List (List TrimmedText)).length
    ∧ (pEndCap.add_to_section_lines [[⟨"a"⟩], [⟨"b"⟩], [⟨"c"⟩]] trimId .Minus).2[0]?
        = some (((attemptState pEndCap trimId .Minus [[⟨"a"⟩], [⟨"b"⟩], [⟨"c"⟩]] 0).add_to_section
            [⟨"a"⟩] trimId .Minus).2) :=
  ⟨by decide,
   (add_to_section_lines_aligned pEndCap trimId .Minus [[⟨"a"⟩], [⟨"b"⟩], [⟨"c"⟩]] 0
      (by decide)).1,
   (add_to_section_lines_aligned pEndCap trimId .Minus [[⟨"a"⟩], [⟨"b"⟩], [⟨"c"⟩]] 0
      (by decide)).2.1⟩

end GridUi
